import Mathlib

/-!
Verification development for `mapping/filter_remapped_reads.py`.

The program has two phases:
* `filter_reads` (the Verifier) consumes the remapped alignment stream,
  decodes each read identifier of the form
  `<orig_name>.<coordinate>.<read_number>.<total_read_number>`,
  counts correctly remapped variants per original name, and produces the
  sets `keep_reads` and `bad_reads`.
* `write_reads` (the Filter) consumes the original (to-remap) stream and
  classifies each record against the two sets, writing kept records to
  the output sink and counting kept / bad / discarded records.

Alignment records are embedded as a structure carrying exactly the pysam
fields the program reads.  Python strings are Lean `String`s; `str.split`
on the one-character delimiter and `int(...)` are embedded as executable
character-list functions below (Lean core's `String.splitOn` / `toInt?`
do not reduce in the kernel).  Python dictionaries become association
lists, Python sets become `Finset String`, and the two `raise ValueError`
sites become the `Except` errors `malformed` (bad identifier, lines
68-72 and uncaught `int()` / unpacking failures) and `duplicate`
(line 131, a name resolving to `keep_reads` twice).
-/

/-- Splitting a character list on a separator character, Python
`str.split(sep)` semantics: the empty list yields `[[]]`, adjacent
separators yield empty fields. -/
def splitCharsAux (sep : Char) : List Char → List Char → List (List Char)
  | [], acc => [acc.reverse]
  | c :: rest, acc =>
    if c = sep then acc.reverse :: splitCharsAux sep rest []
    else splitCharsAux sep rest (c :: acc)

/-- Python `s.split(sep)` for a one-character separator `sep`. -/
def splitOnChar (s : String) (sep : Char) : List String :=
  (splitCharsAux sep s.data []).map String.mk

/-- Numeric value of a decimal digit character, `none` otherwise. -/
def digitVal (c : Char) : Option Nat :=
  if '0' ≤ c ∧ c ≤ '9' then some (c.toNat - '0'.toNat) else none

/-- Accumulating decimal parse of a character list; the accumulator is
`none` until the first digit has been seen, so the empty digit string
fails. -/
def parseNatChars : List Char → Option Nat → Option Nat
  | [], acc => acc
  | c :: rest, acc =>
    match digitVal c with
    | none => none
    | some d => parseNatChars rest (some ((acc.getD 0) * 10 + d))

/-- Python `int(s)` on a decimal string: an optional sign followed by at
least one digit (Python additionally strips surrounding whitespace and
allows underscore grouping; such strings do not occur in read names and
are modelled as failures). A failure corresponds to an uncaught
`ValueError`. -/
def parseInt (s : String) : Option Int :=
  match s.data with
  | '-' :: rest => (parseNatChars rest none).map (fun n => -(n : Int))
  | '+' :: rest => (parseNatChars rest none).map (fun n => (n : Int))
  | l => (parseNatChars l none).map (fun n => (n : Int))

/-- Python `sep in s` for the one-character `sep`. -/
def containsChar (s : String) (c : Char) : Bool :=
  s.data.contains c

/-- The fields of a pysam alignment record that the program reads:
`read.qname`, `read.pos` (0-based start), `read.next_reference_start`
(mate's 0-based start), and the flag accessors. -/
structure AlignedRead where
  qname : String
  pos : Int
  next_reference_start : Int
  is_secondary : Bool
  is_paired : Bool
  is_proper_pair : Bool
  is_read1 : Bool
  is_read2 : Bool
deriving DecidableEq

/-- Result of decoding an encoded read name (lines 67-80): the rejoined
original name, the unparsed coordinate field, and the two trailing
integers. -/
structure DecodedIdentifier where
  original_name : String
  coordinate_spec : String
  variant_index : Int
  variant_total : Int
deriving DecidableEq

/-- Lines 67-80 of `filter_reads`: split `read.qname` on `'.'`; fewer
than 4 fields raises (here: `none`); the first `len - 3` fields are
rejoined with `"."` as the original name; the last three fields are the
coordinate string and the two integers (`int()` failure raises, here:
`none`). The coordinate field is returned unparsed. -/
def decodeName (qname : String) : Option DecodedIdentifier :=
  let words := splitOnChar qname '.'
  if words.length < 4 then none
  else
    match words.drop (words.length - 3) with
    | [coord_str, num_str, total_str] =>
      match parseInt num_str, parseInt total_str with
      | some num, some total =>
        some ⟨String.intercalate "." (words.take (words.length - 3)), coord_str, num, total⟩
      | _, _ => none
    | _ => none

/-- The two fatal `ValueError` sites of `filter_reads`: a malformed
identifier (bad field count or non-integer field, lines 68-72, 79-80,
86, 95-96, 115) and the duplicate-resolution check (lines 130-132). -/
inductive FilterError where
  | malformed : FilterError
  | duplicate : FilterError
deriving DecidableEq

/-- Decidable equality of `Except` results, so that runs of the program
on concrete inputs can be checked by evaluation. -/
instance {ε α : Type} [DecidableEq ε] [DecidableEq α] : DecidableEq (Except ε α) := fun a b =>
  match a, b with
  | .error e, .error f =>
    if h : e = f then .isTrue (by rw [h])
    else .isFalse (fun hh => h (Except.error.inj hh))
  | .ok x, .ok y =>
    if h : x = y then .isTrue (by rw [h])
    else .isFalse (fun hh => h (Except.ok.inj hh))
  | .error _, .ok _ => .isFalse (fun hh => Except.noConfusion hh)
  | .ok _, .error _ => .isFalse (fun hh => Except.noConfusion hh)

/-- Python dictionary lookup `m[n]` / `n in m` on the counts map. -/
def getCount : List (String × Nat) → String → Option Nat
  | [], _ => none
  | p :: ps, x => if p.1 = x then some p.2 else getCount ps x

/-- Python dictionary delete `del m[n]`. -/
def delCount : List (String × Nat) → String → List (String × Nat)
  | [], _ => []
  | p :: ps, n => if p.1 = n then delCount ps n else p :: delCount ps n

/-- Python dictionary store `m[n] = v`: the entry replaces any previous
binding of `n`. -/
def setCount (m : List (String × Nat)) (n : String) (v : Nat) : List (String × Nat) :=
  (n, v) :: delCount m n

/-- The mutable state of `filter_reads` (lines 50-55): the running
per-name count of correctly remapped variants, and the two result
sets. -/
structure FilterState where
  read_counts : List (String × Nat)
  keep_reads : Finset String
  bad_reads : Finset String
deriving DecidableEq

/-- Lines 50-55: all three containers start empty. -/
def initialState : FilterState :=
  ⟨[], ∅, ∅⟩

/-- Line 139 / lines 89, 92, 108 (via `correct_map = False`):
`bad_reads.add(orig_name)`. -/
def addBad (st : FilterState) (orig_name : String) : FilterState :=
  { st with bad_reads := insert orig_name st.bad_reads }

/-- Lines 122-125: the value the counts entry for `orig_name` takes
after one more correct observation (`+= 1`, or created at `1`). -/
def newCountOf (st : FilterState) (orig_name : String) : Nat :=
  match getCount st.read_counts orig_name with
  | some c => c + 1
  | none => 1

/-- Lines 121-136, the `correct_map` branch: bump the count; when it
reaches `total`, raise the duplicate error if the name is already kept,
otherwise move the name into `keep_reads` and delete its count entry. -/
def recordCorrect (st : FilterState) (orig_name : String) (total : Int) :
    Except FilterError FilterState :=
  if (newCountOf st orig_name : Int) = total then
    if orig_name ∈ st.keep_reads then .error .duplicate
    else .ok ⟨delCount (setCount st.read_counts orig_name (newCountOf st orig_name)) orig_name,
      insert orig_name st.keep_reads, st.bad_reads⟩
  else .ok ⟨setCount st.read_counts orig_name (newCountOf st orig_name),
    st.keep_reads, st.bad_reads⟩

/-- Outcome of the coordinate check of lines 82-119 for one record:
fatal parse failure, silent skip (`continue`, the right mate of a
pair), counted as incorrectly mapped, or counted as correctly mapped. -/
inductive MapOutcome where
  | fatal : MapOutcome
  | skipMate : MapOutcome
  | badMap : MapOutcome
  | correctMap : MapOutcome
deriving DecidableEq

/-- Lines 82-119 of `filter_reads`, deciding `correct_map` for one
record with decoded coordinate field `coord_str`.  Paired branch
(lines 84-112): split on `'-'` (unpacking to other than two fields
raises), reads not flagged paired / proper-pair are bad, the two
coordinates must parse, and only the left mate (strictly smaller start,
ties broken by `is_read1 ∧ ¬is_read2`) decides: correct iff its
start+1 is `c1` and its mate's start+1 is `c2`; the right mate is
skipped.  Note lines 97-102 sort the pair into `left_pos`/`right_pos`
but line 107 compares against the unsorted `pos1`/`pos2`.  Single-end
branch (lines 113-119): the coordinate must parse and equal start+1. -/
def classifyMap (pos next : Int) (is_paired is_proper_pair is_read1 is_read2 : Bool)
    (coord_str : String) : MapOutcome :=
  if containsChar coord_str '-' then
    match splitOnChar coord_str '-' with
    | [c1, c2] =>
      if is_paired = false then .badMap
      else if is_proper_pair = false then .badMap
      else
        match parseInt c1, parseInt c2 with
        | some pos1, some pos2 =>
          if pos < next ∨ (pos = next ∧ is_read1 = true ∧ is_read2 = false) then
            if pos1 = pos + 1 ∧ pos2 = next + 1 then .correctMap else .badMap
          else .skipMate
        | _, _ => .fatal
    | _ => .fatal
  else
    match parseInt coord_str with
    | some p => if p = pos + 1 then .correctMap else .badMap
    | none => .fatal

/-- The body of the `for read in remap_bam` loop of `filter_reads`
(lines 57-139) for one record: skip secondary alignments, decode the
name (failure is fatal), classify the mapping, and update the state. -/
def processRead (st : FilterState) (read : AlignedRead) : Except FilterError FilterState :=
  if read.is_secondary then .ok st
  else
    match decodeName read.qname with
    | none => .error .malformed
    | some d =>
      match classifyMap read.pos read.next_reference_start read.is_paired
          read.is_proper_pair read.is_read1 read.is_read2 d.coordinate_spec with
      | .fatal => .error .malformed
      | .skipMate => .ok st
      | .badMap => .ok (addBad st d.original_name)
      | .correctMap => recordCorrect st d.original_name d.variant_total

/-- `filter_reads` run from an arbitrary starting state. -/
def filterFrom (st : FilterState) (reads : List AlignedRead) :
    Except FilterError FilterState :=
  reads.foldlM processRead st

/-- `filter_reads(remap_bam)` (lines 49-141): fold the loop body over
the remap stream starting from empty state; the result carries
`keep_reads` and `bad_reads`. -/
def filter_reads (reads : List AlignedRead) : Except FilterError FilterState :=
  filterFrom initialState reads

/-- The observable result of `write_reads` (lines 146-163): the three
counters and the sequence of records written to the `keep_bam` sink, in
order. -/
structure WriteResult where
  keep_count : Nat
  bad_count : Nat
  discard_count : Nat
  written : List AlignedRead
deriving DecidableEq

/-- The body of the `for read in to_remap_bam` loop of `write_reads`
(lines 152-159): the record's `qname` is looked up directly (undecoded),
`bad_reads` first, then `keep_reads` (written to the sink), else it is
discarded. -/
def writeStep (keep_reads bad_reads : Finset String) (acc : WriteResult)
    (read : AlignedRead) : WriteResult :=
  if read.qname ∈ bad_reads then { acc with bad_count := acc.bad_count + 1 }
  else if read.qname ∈ keep_reads then
    { acc with keep_count := acc.keep_count + 1, written := acc.written ++ [read] }
  else { acc with discard_count := acc.discard_count + 1 }

/-- `write_reads(to_remap_bam, keep_bam, keep_reads, bad_reads)`
(lines 146-163), with the sink modelled as the `written` list. -/
def write_reads (to_remap : List AlignedRead) (keep_reads bad_reads : Finset String) :
    WriteResult :=
  to_remap.foldl (writeStep keep_reads bad_reads) ⟨0, 0, 0, []⟩

/-- Proof helper: the original name of a record that `processRead`
counts as correctly mapped, `none` for every record that is skipped,
bad, or fatal.  This mirrors the branch structure of `processRead` and
is independent of the verifier state. -/
def correctName (read : AlignedRead) : Option String :=
  if read.is_secondary then none
  else
    match decodeName read.qname with
    | none => none
    | some d =>
      if classifyMap read.pos read.next_reference_start read.is_paired
          read.is_proper_pair read.is_read1 read.is_read2 d.coordinate_spec = .correctMap
      then some d.original_name
      else none

/-- Modelled from the spec (§4.2, claim C2): the intended paired-end
correctness test, in which `(c1, c2)` is first sorted by numeric value
and the left mate's start+1 is compared with the smaller coordinate and
its mate's start+1 with the larger one. -/
def sortedPairCheck (c1 c2 pos next : Int) : Prop :=
  pos + 1 = min c1 c2 ∧ next + 1 = max c1 c2


/-- A list of length at least 4, dropped at three from its end, is the
explicit list of its last three elements. -/
lemma drop_length_sub_three {α : Type} (d : α) (l : List α) (h : 4 ≤ l.length) :
    l.drop (l.length - 3) =
      [l.getD (l.length - 3) d, l.getD (l.length - 2) d, l.getD (l.length - 1) d] := by
  have h3 : l.length - 3 < l.length := by omega
  have h2 : l.length - 2 < l.length := by omega
  have h1 : l.length - 1 < l.length := by omega
  rw [List.drop_eq_getElem_cons h3, (by omega : l.length - 3 + 1 = l.length - 2),
    List.drop_eq_getElem_cons h2, (by omega : l.length - 2 + 1 = l.length - 1),
    List.drop_eq_getElem_cons h1, (by omega : l.length - 1 + 1 = l.length),
    List.drop_length, List.getD_eq_getElem l d h3, List.getD_eq_getElem l d h2,
    List.getD_eq_getElem l d h1]

/-- Successful decode: with at least four fields and integer trailing
fields, `decodeName` rejoins the leading fields and returns the last
three. -/
lemma decodeName_eq_some (s : String) (n t : Int)
    (h4 : 4 ≤ (splitOnChar s '.').length)
    (hn : parseInt ((splitOnChar s '.').getD ((splitOnChar s '.').length - 2) "") = some n)
    (ht : parseInt ((splitOnChar s '.').getD ((splitOnChar s '.').length - 1) "") = some t) :
    decodeName s =
      some ⟨String.intercalate "." ((splitOnChar s '.').take ((splitOnChar s '.').length - 3)),
        (splitOnChar s '.').getD ((splitOnChar s '.').length - 3) "", n, t⟩ := by
  unfold decodeName
  rw [if_neg (by omega), drop_length_sub_three "" _ h4]
  simp only [hn, ht]

/-- Failing decode: fewer than four fields, or a non-integer in one of
the two trailing fields, makes `decodeName` fail. -/
lemma decodeName_eq_none (s : String)
    (h : (splitOnChar s '.').length < 4 ∨
      parseInt ((splitOnChar s '.').getD ((splitOnChar s '.').length - 2) "") = none ∨
      parseInt ((splitOnChar s '.').getD ((splitOnChar s '.').length - 1) "") = none) :
    decodeName s = none := by
  unfold decodeName
  by_cases hlen : (splitOnChar s '.').length < 4
  · rw [if_pos hlen]
  · rw [if_neg hlen, drop_length_sub_three "" _ (by omega)]
    rcases h with h | h | h
    · omega
    · simp only [h]
    · rcases hb : parseInt ((splitOnChar s '.').getD ((splitOnChar s '.').length - 2) "") with _ | v <;>
        simp only [hb, h]

/-- Claim C5: for every identifier string with at least 4
delimiter-separated fields whose last two fields parse as integers,
decoding returns the last three fields as `coordinate_spec`,
`variant_index` and `variant_total`, and rejoins all leading fields
with the delimiter to reconstruct `original_name`; in particular
`"readA.100.1.2"` decodes to original name `"readA"`, coordinate
`"100"`, index 1, total 2, and `"read.with.dots.100.1.2"` decodes to
original name `"read.with.dots"`. -/
theorem c5_decode_rejoin :
    (∀ (s : String) (n t : Int),
      4 ≤ (splitOnChar s '.').length →
      parseInt ((splitOnChar s '.').getD ((splitOnChar s '.').length - 2) "") = some n →
      parseInt ((splitOnChar s '.').getD ((splitOnChar s '.').length - 1) "") = some t →
      decodeName s =
        some ⟨String.intercalate "." ((splitOnChar s '.').take ((splitOnChar s '.').length - 3)),
          (splitOnChar s '.').getD ((splitOnChar s '.').length - 3) "", n, t⟩) ∧
    decodeName "readA.100.1.2" = some ⟨"readA", "100", 1, 2⟩ ∧
    decodeName "read.with.dots.100.1.2" = some ⟨"read.with.dots", "100", 1, 2⟩ :=
  ⟨decodeName_eq_some, by decide, by decide⟩

/-- Witness for C5: the general decode statement applied to the
concrete identifier `"readA.100.1.2"`. -/
theorem c5_witness :
    decodeName "readA.100.1.2" = some ⟨"readA", "100", 1, 2⟩ :=
  c5_decode_rejoin.1 "readA.100.1.2" 1 2 (by decide) (by decide) (by decide)

/-- Claim C6: for every non-secondary remap record whose identifier
splits into fewer than 4 delimited fields, or whose last two fields are
not parseable as integers, the verifier loop body fails with the
malformed-identifier error instead of producing a result for the
record. -/
theorem c6_malformed_fatal :
    ∀ (st : FilterState) (read : AlignedRead),
      read.is_secondary = false →
      ((splitOnChar read.qname '.').length < 4 ∨
        parseInt ((splitOnChar read.qname '.').getD
          ((splitOnChar read.qname '.').length - 2) "") = none ∨
        parseInt ((splitOnChar read.qname '.').getD
          ((splitOnChar read.qname '.').length - 1) "") = none) →
      processRead st read = .error .malformed := by
  intro st read hsec hbad
  unfold processRead
  rw [hsec, decodeName_eq_none read.qname hbad]
  rfl

/-- Witness for C6: a record with the three-field identifier
`"r1.x.1"` aborts the run with the malformed error. -/
theorem c6_witness :
    processRead initialState ⟨"r1.x.1", 100, 0, false, false, false, false, false⟩ =
      .error .malformed :=
  c6_malformed_fatal initialState ⟨"r1.x.1", 100, 0, false, false, false, false, false⟩
    rfl (Or.inl (by decide))

/-- Claim C1 is false on the code (counterexample): the Filter looks up
the record's raw identifier without any decode-and-rejoin.  After the
single-end remap record `"r1.101.1.1"` at 0-based position 100 puts
`"r1"` into the keep set, an original-stream record whose identifier is
`"r1.101.1.1"` is NOT written to the sink: it is discarded and
`kept_count` stays 0 (the claim says it is written with
`kept_count = 1`). -/
theorem c1_counterexample :
    (filter_reads [⟨"r1.101.1.1", 100, 0, false, false, false, false, false⟩]).map
        (fun st => write_reads [⟨"r1.101.1.1", 100, 0, false, false, false, false, false⟩]
          st.keep_reads st.bad_reads) =
      .ok ⟨0, 0, 1, []⟩ := by
  decide

/-- Claim C1 (amended): the Filter tests each original record's raw
identifier directly against `bad_reads` / `keep_reads`; after the
single-end scenario, an original-stream record whose identifier equals
the decoded original name `"r1"` is written to the output sink and
`kept_count` becomes 1. -/
theorem c1_amended_raw_lookup :
    (filter_reads [⟨"r1.101.1.1", 100, 0, false, false, false, false, false⟩]).map
        (fun st => write_reads [⟨"r1", 100, 0, false, false, false, false, false⟩]
          st.keep_reads st.bad_reads) =
      .ok ⟨1, 0, 0, [⟨"r1", 100, 0, false, false, false, false, false⟩]⟩ := by
  decide

/-- Claim C2: the code bug.  For the paired record with identifier
`"r2.80-50.1.1"`, left mate at 0-based start 49 with mate start 79, the
spec's sorted comparison holds (49+1 = min 80 50 and 79+1 = max 80 50),
so the claim says the record is counted correct and `"r2"` is kept; the
code compares against the unsorted `(c1, c2) = (80, 50)` (the sorted
`left_pos`/`right_pos` of lines 97-102 are never used) and instead adds
`"r2"` to `bad_reads`. -/
theorem c2_unsorted_pair_comparison :
    sortedPairCheck 80 50 49 79 ∧
    filter_reads [⟨"r2.80-50.1.1", 49, 79, false, true, true, true, false⟩] =
      .ok ⟨[], ∅, {"r2"}⟩ := by
  refine ⟨?_, by decide⟩
  unfold sortedPairCheck
  decide

/-- Claim C3 is false on the code (counterexample): on the remap stream
`"r.10.1.2"` at 9 (correct), `"r.10.2.2"` at 5 (wrong), `"r.10.3.2"`
at 9 (correct), `verify` returns normally with `"r"` in BOTH
`keep_reads` and `bad_reads`: the name was added to `bad_reads` by the
second record and still ended up in `keep_reads` via the third. -/
theorem c3_counterexample :
    filter_reads [⟨"r.10.1.2", 9, 0, false, false, false, false, false⟩,
        ⟨"r.10.2.2", 5, 0, false, false, false, false, false⟩,
        ⟨"r.10.3.2", 9, 0, false, false, false, false, false⟩] =
      .ok ⟨[], {"r"}, {"r"}⟩ ∧
    ¬ (({"r"} : Finset String) ∩ {"r"} = ∅) := by
  constructor
  · decide
  · decide

/-- One loop iteration never removes a name from `bad_reads`. -/
lemma processRead_bad_mono (st : FilterState) (read : AlignedRead) (st' : FilterState)
    (h : processRead st read = .ok st') : st.bad_reads ⊆ st'.bad_reads := by
  unfold processRead at h
  split at h
  · cases Except.ok.inj h
    exact Finset.Subset.refl _
  · split at h
    · exact absurd h (by simp)
    · split at h
      · exact absurd h (by simp)
      · cases Except.ok.inj h
        exact Finset.Subset.refl _
      · cases Except.ok.inj h
        exact Finset.subset_insert _ _
      · unfold recordCorrect at h
        split at h
        · split at h
          · exact absurd h (by simp)
          · cases Except.ok.inj h
            exact Finset.Subset.refl _
        · cases Except.ok.inj h
          exact Finset.Subset.refl _

/-- Claim C3 (amended): `bad_reads` is monotone — once a name has been
added to `bad_reads`, every later state of a normally-returning run
still contains it — but the name may additionally end up in
`keep_reads`, so the two sets need not be disjoint. -/
theorem c3_bad_names_monotone :
    ∀ (reads : List AlignedRead) (st st' : FilterState) (n : String),
      n ∈ st.bad_reads → filterFrom st reads = .ok st' → n ∈ st'.bad_reads := by
  intro reads
  induction reads with
  | nil =>
    intro st st' n hn h
    unfold filterFrom at h
    simp only [List.foldlM_nil] at h
    cases Except.ok.inj h
    exact hn
  | cons r rs ih =>
    intro st st' n hn h
    unfold filterFrom at h
    rw [List.foldlM_cons] at h
    rcases hstep : processRead st r with e | st1 <;> rw [hstep] at h
    · exact absurd h (by simp [Bind.bind, Except.bind])
    · simp only [Bind.bind, Except.bind] at h
      exact ih st1 st' n (processRead_bad_mono st r st1 hstep hn) h

/-- Witness for the amended C3: starting from a state whose bad set
holds `"x"`, running the three-record stream of the counterexample
keeps `"x"` in the final bad set. -/
theorem c3_witness :
    "x" ∈ (FilterState.mk [] {"r"} {"r", "x"}).bad_reads :=
  c3_bad_names_monotone
    [⟨"r.10.1.2", 9, 0, false, false, false, false, false⟩,
      ⟨"r.10.2.2", 5, 0, false, false, false, false, false⟩,
      ⟨"r.10.3.2", 9, 0, false, false, false, false, false⟩]
    ⟨[], ∅, {"x"}⟩ ⟨[], {"r"}, {"r", "x"}⟩ "x" (by decide) (by decide)

/-- The loop body of a non-secondary record with a decoded name
dispatches on the map classification. -/
lemma processRead_eq (st : FilterState) (read : AlignedRead) (d : DecodedIdentifier)
    (hsec : read.is_secondary = false) (hdec : decodeName read.qname = some d) :
    processRead st read =
      match classifyMap read.pos read.next_reference_start read.is_paired
          read.is_proper_pair read.is_read1 read.is_read2 d.coordinate_spec with
      | .fatal => .error .malformed
      | .skipMate => .ok st
      | .badMap => .ok (addBad st d.original_name)
      | .correctMap => recordCorrect st d.original_name d.variant_total := by
  unfold processRead
  rw [hsec, hdec]
  rfl

/-- Classification of a well-formed paired record at a tied position:
the record contributes (correct or bad by the position test) exactly
when it is flagged read1-and-not-read2, and is skipped otherwise. -/
lemma classifyMap_tie (next : Int) (r1 r2 : Bool) (coord c1 c2 : String) (p1 p2 : Int)
    (hdash : containsChar coord '-' = true)
    (hsplit : splitOnChar coord '-' = [c1, c2])
    (hp1 : parseInt c1 = some p1) (hp2 : parseInt c2 = some p2) :
    classifyMap next next true true r1 r2 coord =
      if r1 = true ∧ r2 = false then
        (if p1 = next + 1 ∧ p2 = next + 1 then MapOutcome.correctMap else MapOutcome.badMap)
      else MapOutcome.skipMate := by
  unfold classifyMap
  rw [if_pos hdash, hsplit]
  simp only [hp1, hp2]
  rw [if_neg (by decide : ¬(true = false)), if_neg (by decide : ¬(true = false))]
  by_cases hm : r1 = true ∧ r2 = false
  · rw [if_pos ?_, if_pos hm]
    right
    exact ⟨by simp, hm.1, hm.2⟩
  · rw [if_neg ?_, if_neg hm]
    rintro (h | ⟨-, h1, h2⟩)
    · exact absurd h (lt_irrefl next)
    · exact hm ⟨h1, h2⟩

/-- Claim C7: for every paired, proper-pair remap record (well-formed
paired coordinate field) whose own 0-based start equals its mate's
start, exactly one of the two mates contributes to the keep/bad
decision — the one flagged read1 and not read2, which takes the
correct-or-bad path — and any other tied mate is skipped with the
state fully unchanged: not counted correct, no count incremented,
nothing added to `bad_reads`. -/
theorem c7_paired_tiebreak :
    ∀ (st : FilterState) (read : AlignedRead) (d : DecodedIdentifier) (c1 c2 : String)
      (p1 p2 : Int),
      read.is_secondary = false →
      decodeName read.qname = some d →
      containsChar d.coordinate_spec '-' = true →
      splitOnChar d.coordinate_spec '-' = [c1, c2] →
      parseInt c1 = some p1 → parseInt c2 = some p2 →
      read.is_paired = true → read.is_proper_pair = true →
      read.pos = read.next_reference_start →
      (¬(read.is_read1 = true ∧ read.is_read2 = false) → processRead st read = .ok st) ∧
      ((read.is_read1 = true ∧ read.is_read2 = false) →
        processRead st read =
          if p1 = read.pos + 1 ∧ p2 = read.next_reference_start + 1
          then recordCorrect st d.original_name d.variant_total
          else .ok (addBad st d.original_name)) := by
  intro st read d c1 c2 p1 p2 hsec hdec hdash hsplit hp1 hp2 hpair hproper htie
  rw [processRead_eq st read d hsec hdec, htie, hpair, hproper,
    classifyMap_tie read.next_reference_start read.is_read1 read.is_read2
      d.coordinate_spec c1 c2 p1 p2 hdash hsplit hp1 hp2]
  constructor
  · intro hm
    rw [if_neg hm]
  · intro hm
    rw [if_pos hm]
    by_cases hpos : p1 = read.next_reference_start + 1 ∧ p2 = read.next_reference_start + 1
    · rw [if_pos hpos, if_pos hpos]
    · rw [if_neg hpos, if_neg hpos]

/-- Witness for C7: a tied proper-pair record flagged read2 is skipped
with the state unchanged, and the tied read1 mate of `"r.50-50.1.1"`
at start 49 takes the correct path. -/
theorem c7_witness :
    processRead initialState ⟨"r.50-50.1.1", 49, 49, false, true, true, false, true⟩ =
      .ok initialState ∧
    processRead initialState ⟨"r.50-50.1.1", 49, 49, false, true, true, true, false⟩ =
      if (50 : Int) = 49 + 1 ∧ (50 : Int) = 49 + 1
      then recordCorrect initialState "r" 1
      else .ok (addBad initialState "r") :=
  ⟨(c7_paired_tiebreak initialState ⟨"r.50-50.1.1", 49, 49, false, true, true, false, true⟩
      ⟨"r", "50-50", 1, 1⟩ "50" "50" 50 50 rfl (by decide) (by decide) (by decide)
      (by decide) (by decide) rfl rfl rfl).1 (by decide),
   (c7_paired_tiebreak initialState ⟨"r.50-50.1.1", 49, 49, false, true, true, true, false⟩
      ⟨"r", "50-50", 1, 1⟩ "50" "50" 50 50 rfl (by decide) (by decide) (by decide)
      (by decide) (by decide) rfl rfl rfl).2 (by decide)⟩

/-- Running totals of the write loop over any prefix, from any
accumulator value. -/
lemma write_reads_aux (keep bad : Finset String) (reads : List AlignedRead) :
    ∀ acc : WriteResult,
      (List.foldl (writeStep keep bad) acc reads).bad_count =
        acc.bad_count + reads.countP (fun r => decide (r.qname ∈ bad)) ∧
      (List.foldl (writeStep keep bad) acc reads).keep_count =
        acc.keep_count + reads.countP (fun r => decide (r.qname ∉ bad ∧ r.qname ∈ keep)) ∧
      (List.foldl (writeStep keep bad) acc reads).discard_count =
        acc.discard_count + reads.countP (fun r => decide (r.qname ∉ bad ∧ r.qname ∉ keep)) := by
  induction reads with
  | nil =>
    intro acc
    simp
  | cons r rs ih =>
    intro acc
    rw [List.foldl_cons]
    rcases ih (writeStep keep bad acc r) with ⟨ihb, ihk, ihd⟩
    rw [ihb, ihk, ihd, List.countP_cons, List.countP_cons, List.countP_cons]
    by_cases hb : r.qname ∈ bad
    · have e : writeStep keep bad acc r = { acc with bad_count := acc.bad_count + 1 } := by
        unfold writeStep
        rw [if_pos hb]
      have db : (if decide (r.qname ∈ bad) = true then (1 : Nat) else 0) = 1 := by simp [hb]
      have dk : (if decide (r.qname ∉ bad ∧ r.qname ∈ keep) = true then (1 : Nat) else 0) = 0 := by
        simp [hb]
      have dd : (if decide (r.qname ∉ bad ∧ r.qname ∉ keep) = true then (1 : Nat) else 0) = 0 := by
        simp [hb]
      rw [e]
      simp only [db, dk, dd]
      refine ⟨by omega, by omega, by omega⟩
    · by_cases hk : r.qname ∈ keep
      · have e : writeStep keep bad acc r =
            { acc with keep_count := acc.keep_count + 1, written := acc.written ++ [r] } := by
          unfold writeStep
          rw [if_neg hb, if_pos hk]
        have db : (if decide (r.qname ∈ bad) = true then (1 : Nat) else 0) = 0 := by simp [hb]
        have dk : (if decide (r.qname ∉ bad ∧ r.qname ∈ keep) = true then (1 : Nat) else 0) = 1 := by
          simp [hb, hk]
        have dd : (if decide (r.qname ∉ bad ∧ r.qname ∉ keep) = true then (1 : Nat) else 0) = 0 := by
          simp [hb, hk]
        rw [e]
        simp only [db, dk, dd]
        refine ⟨by omega, by omega, by omega⟩
      · have e : writeStep keep bad acc r =
            { acc with discard_count := acc.discard_count + 1 } := by
          unfold writeStep
          rw [if_neg hb, if_neg hk]
        have db : (if decide (r.qname ∈ bad) = true then (1 : Nat) else 0) = 0 := by simp [hb]
        have dk : (if decide (r.qname ∉ bad ∧ r.qname ∈ keep) = true then (1 : Nat) else 0) = 0 := by
          simp [hb, hk]
        have dd : (if decide (r.qname ∉ bad ∧ r.qname ∉ keep) = true then (1 : Nat) else 0) = 1 := by
          simp [hb, hk]
        rw [e]
        simp only [db, dk, dd]
        refine ⟨by omega, by omega, by omega⟩

/-- Claim C8: the Filter classifies each original-stream record into
exactly one of the three categories, checking `bad_reads` before
`keep_reads`, and the three counters sum to the total number of records
of the original stream — no record is skipped for being a secondary
alignment. -/
theorem c8_count_conservation :
    ∀ (reads : List AlignedRead) (keep bad : Finset String),
      (write_reads reads keep bad).bad_count =
        reads.countP (fun r => decide (r.qname ∈ bad)) ∧
      (write_reads reads keep bad).keep_count =
        reads.countP (fun r => decide (r.qname ∉ bad ∧ r.qname ∈ keep)) ∧
      (write_reads reads keep bad).discard_count =
        reads.countP (fun r => decide (r.qname ∉ bad ∧ r.qname ∉ keep)) ∧
      (write_reads reads keep bad).keep_count + (write_reads reads keep bad).bad_count +
        (write_reads reads keep bad).discard_count = reads.length := by
  intro reads keep bad
  have hsum : ∀ rs : List AlignedRead,
      rs.countP (fun r => decide (r.qname ∉ bad ∧ r.qname ∈ keep)) +
        rs.countP (fun r => decide (r.qname ∈ bad)) +
        rs.countP (fun r => decide (r.qname ∉ bad ∧ r.qname ∉ keep)) = rs.length := by
    intro rs
    induction rs with
    | nil => rfl
    | cons r t iht =>
      rw [List.countP_cons, List.countP_cons, List.countP_cons, List.length_cons]
      by_cases hb1 : r.qname ∈ bad
      · have db : (if decide (r.qname ∈ bad) = true then (1 : Nat) else 0) = 1 := by simp [hb1]
        have dk : (if decide (r.qname ∉ bad ∧ r.qname ∈ keep) = true then (1 : Nat) else 0) = 0 := by
          simp [hb1]
        have dd : (if decide (r.qname ∉ bad ∧ r.qname ∉ keep) = true then (1 : Nat) else 0) = 0 := by
          simp [hb1]
        simp only [db, dk, dd]
        omega
      · by_cases hk1 : r.qname ∈ keep
        · have db : (if decide (r.qname ∈ bad) = true then (1 : Nat) else 0) = 0 := by simp [hb1]
          have dk : (if decide (r.qname ∉ bad ∧ r.qname ∈ keep) = true then (1 : Nat) else 0) = 1 := by
            simp [hb1, hk1]
          have dd : (if decide (r.qname ∉ bad ∧ r.qname ∉ keep) = true then (1 : Nat) else 0) = 0 := by
            simp [hb1, hk1]
          simp only [db, dk, dd]
          omega
        · have db : (if decide (r.qname ∈ bad) = true then (1 : Nat) else 0) = 0 := by simp [hb1]
          have dk : (if decide (r.qname ∉ bad ∧ r.qname ∈ keep) = true then (1 : Nat) else 0) = 0 := by
            simp [hb1, hk1]
          have dd : (if decide (r.qname ∉ bad ∧ r.qname ∉ keep) = true then (1 : Nat) else 0) = 1 := by
            simp [hb1, hk1]
          simp only [db, dk, dd]
          omega
  rcases write_reads_aux keep bad reads ⟨0, 0, 0, []⟩ with ⟨hb, hk, hd⟩
  unfold write_reads
  rw [hb, hk, hd]
  have za : (⟨0, 0, 0, []⟩ : WriteResult).bad_count = 0 := rfl
  have zb : (⟨0, 0, 0, []⟩ : WriteResult).keep_count = 0 := rfl
  have zc : (⟨0, 0, 0, []⟩ : WriteResult).discard_count = 0 := rfl
  refine ⟨by omega, by omega, by omega, ?_⟩
  have := hsum reads
  omega

/-- Claim C9 is false on the code (counterexample): after the stream
`"r.10.1.2"` at 9 (correct, count becomes 1) and `"r.10.2.2"` at 5
(wrong, `"r"` goes to `bad_reads`), `verify` ends with `"r"` holding a
residual entry in the running count map while `"r"` is a member of
`bad_reads`: a bad verdict does not clear the count entry. -/
theorem c9_counterexample :
    filter_reads [⟨"r.10.1.2", 9, 0, false, false, false, false, false⟩,
        ⟨"r.10.2.2", 5, 0, false, false, false, false, false⟩] =
      .ok ⟨[("r", 1)], ∅, {"r"}⟩ ∧
    getCount [("r", 1)] "r" = some 1 ∧ "r" ∈ ({"r"} : Finset String) := by
  decide

/-- Lookup after delete: the deleted key is gone, others unchanged. -/
lemma getCount_delCount (m : List (String × Nat)) (n x : String) :
    getCount (delCount m n) x = if x = n then none else getCount m x := by
  induction m with
  | nil =>
    unfold delCount getCount
    simp
  | cons p ps ih =>
    unfold delCount
    by_cases hp : p.1 = n
    · rw [if_pos hp, ih]
      by_cases hx : x = n
      · rw [if_pos hx, if_pos hx]
      · rw [if_neg hx, if_neg hx, getCount,
          if_neg (fun h => hx (by rw [← h]; exact hp))]
    · rw [if_neg hp, getCount, getCount]
      by_cases hpx : p.1 = x
      · rw [if_neg (fun hxn => hp (hpx.trans hxn)), if_pos hpx, if_pos hpx]
      · rw [if_neg hpx, if_neg hpx, ih]

/-- Lookup after store: the stored key has the new value, others are
unchanged. -/
lemma getCount_setCount (m : List (String × Nat)) (n : String) (v : Nat) (x : String) :
    getCount (setCount m n v) x = if x = n then some v else getCount m x := by
  unfold setCount
  rw [getCount]
  by_cases hx : x = n
  · rw [if_pos (by rw [hx]), if_pos hx]
  · rw [if_neg (fun h => hx h.symm), getCount_delCount, if_neg hx, if_neg hx]

/-- Claim C9 (amended): eviction happens at the instant of resolution —
when a correct record brings a name's count to `variant_total` and the
name is not yet kept, the name moves into `keep_reads` and its entry is
deleted from the count map.  (A bad verdict, however, leaves residual
count entries, so a name in `bad_reads` may still have one.) -/
theorem c9_eviction_on_keep :
    ∀ (st : FilterState) (n : String) (total : Int),
      (newCountOf st n : Int) = total → n ∉ st.keep_reads →
      recordCorrect st n total =
        .ok ⟨delCount (setCount st.read_counts n (newCountOf st n)) n,
          insert n st.keep_reads, st.bad_reads⟩ ∧
      getCount (delCount (setCount st.read_counts n (newCountOf st n)) n) n = none := by
  intro st n total htot hmem
  constructor
  · unfold recordCorrect
    rw [if_pos htot, if_neg hmem]
  · rw [getCount_delCount, if_pos rfl]

/-- Witness for the amended C9: a name with running count 1 and
`variant_total = 2` resolves on its second correct record, is kept, and
its count entry is evicted. -/
theorem c9_witness :
    recordCorrect ⟨[("r", 1)], ∅, ∅⟩ "r" 2 =
      .ok ⟨delCount (setCount [("r", 1)] "r" (newCountOf ⟨[("r", 1)], ∅, ∅⟩ "r")) "r",
        insert "r" ∅, ∅⟩ ∧
    getCount (delCount (setCount [("r", 1)] "r" (newCountOf ⟨[("r", 1)], ∅, ∅⟩ "r")) "r") "r" =
      none :=
  c9_eviction_on_keep ⟨[("r", 1)], ∅, ∅⟩ "r" 2 (by decide) (by decide)

/-- Two records that can differ only in the `variant_index` field of a
well-formed identifier (or are outright equal). -/
def sameUpToIndex (r r' : AlignedRead) : Prop :=
  r = r' ∨
  (r.pos = r'.pos ∧ r.next_reference_start = r'.next_reference_start ∧
   r.is_secondary = r'.is_secondary ∧ r.is_paired = r'.is_paired ∧
   r.is_proper_pair = r'.is_proper_pair ∧ r.is_read1 = r'.is_read1 ∧
   r.is_read2 = r'.is_read2 ∧
   ∃ d d', decodeName r.qname = some d ∧ decodeName r'.qname = some d' ∧
     d.original_name = d'.original_name ∧ d.coordinate_spec = d'.coordinate_spec ∧
     d.variant_total = d'.variant_total)

/-- The loop body never reads `variant_index`: records related by
`sameUpToIndex` are processed identically from any state. -/
lemma processRead_congr (st : FilterState) (r r' : AlignedRead)
    (h : sameUpToIndex r r') : processRead st r = processRead st r' := by
  rcases h with rfl | ⟨hpos, hnext, hsec, hpair, hproper, h1, h2, d, d', hd, hd', ho, hc, ht⟩
  · rfl
  · by_cases hs : r.is_secondary = true
    · have hs' : r'.is_secondary = true := by rw [← hsec]; exact hs
      unfold processRead
      rw [if_pos hs, if_pos hs']
    · have hs2 : r.is_secondary = false := by revert hs; cases r.is_secondary <;> simp
      have hs2' : r'.is_secondary = false := by rw [← hsec]; exact hs2
      rw [processRead_eq st r d hs2 hd, processRead_eq st r' d' hs2' hd',
        hpos, hnext, hpair, hproper, h1, h2, hc, ho, ht]

/-- Unfolding the verifier fold one record at a time. -/
lemma filterFrom_cons (st : FilterState) (r : AlignedRead) (reads : List AlignedRead) :
    filterFrom st (r :: reads) = processRead st r >>= fun st1 => filterFrom st1 reads := by
  unfold filterFrom
  rw [List.foldlM_cons]

/-- Claim C10: the keep/bad sets of the Verifier do not depend on the
`variant_index` field — two remap streams whose records are pointwise
identical except for well-formed `variant_index` fields produce the
same result (or fail identically). -/
theorem c10_variant_index_irrelevant :
    ∀ (s s' : List AlignedRead), List.Forall₂ sameUpToIndex s s' →
      filter_reads s = filter_reads s' := by
  intro s s' h
  unfold filter_reads
  suffices hgen : ∀ st, filterFrom st s = filterFrom st s' from hgen initialState
  induction h with
  | nil => intro st; rfl
  | @cons a b l1 l2 hr hrs ih =>
    intro st
    rw [filterFrom_cons, filterFrom_cons, processRead_congr st a b hr]
    cases hstep : processRead st b with
    | error e => simp [Bind.bind, Except.bind]
    | ok st1 =>
      simp only [Bind.bind, Except.bind]
      exact ih st1

/-- Witness for C10: two one-record streams differing only in the
`variant_index` field (1 vs 7) verify to the same result. -/
theorem c10_witness :
    filter_reads [⟨"r.10.1.2", 9, 0, false, false, false, false, false⟩] =
      filter_reads [⟨"r.10.7.2", 9, 0, false, false, false, false, false⟩] :=
  c10_variant_index_irrelevant _ _
    (List.Forall₂.cons
      (Or.inr ⟨rfl, rfl, rfl, rfl, rfl, rfl, rfl,
        ⟨"r", "10", 1, 2⟩, ⟨"r", "10", 7, 2⟩, by decide, by decide, rfl, rfl, rfl⟩)
      List.Forall₂.nil)

/-- A record counted as correct: non-secondary, decodable, and
classified `correctMap`. -/
lemma correctName_some (read : AlignedRead) (x : String)
    (h : correctName read = some x) :
    read.is_secondary = false ∧ ∃ d, decodeName read.qname = some d ∧ d.original_name = x ∧
      classifyMap read.pos read.next_reference_start read.is_paired read.is_proper_pair
        read.is_read1 read.is_read2 d.coordinate_spec = .correctMap := by
  unfold correctName at h
  by_cases hs : read.is_secondary = true
  · rw [if_pos hs] at h
    exact absurd h (by simp)
  · have hs2 : read.is_secondary = false := by revert hs; cases read.is_secondary <;> simp
    rw [if_neg hs] at h
    refine ⟨hs2, ?_⟩
    rcases hdec : decodeName read.qname with _ | d
    · rw [hdec] at h
      exact absurd h (by simp)
    · rw [hdec] at h
      have h2 : (if classifyMap read.pos read.next_reference_start read.is_paired
          read.is_proper_pair read.is_read1 read.is_read2 d.coordinate_spec = .correctMap
          then some d.original_name else none) = some x := h
      by_cases hcl : classifyMap read.pos read.next_reference_start read.is_paired
          read.is_proper_pair read.is_read1 read.is_read2 d.coordinate_spec = .correctMap
      · rw [if_pos hcl] at h2
        exact ⟨d, rfl, Option.some.inj h2, hcl⟩
      · rw [if_neg hcl] at h2
        exact absurd h2 (by simp)

/-- A record counted as correct runs the counting branch. -/
lemma processRead_of_correct (st : FilterState) (read : AlignedRead) (x : String)
    (h : correctName read = some x) :
    ∃ d, decodeName read.qname = some d ∧ d.original_name = x ∧
      processRead st read = recordCorrect st x d.variant_total := by
  rcases correctName_some read x h with ⟨hs2, d, hdec, hox, hcl⟩
  refine ⟨d, hdec, hox, ?_⟩
  rw [processRead_eq st read d hs2 hdec, hcl, hox]

/-- Exhaustive behaviour of one loop iteration: it aborts with the
malformed error, or it leaves the count map and keep set untouched
(secondary skip, right-mate skip, or bad verdict), or the record is
correct and runs the counting branch. -/
lemma processRead_cases (st : FilterState) (read : AlignedRead) :
    processRead st read = .error .malformed ∨
    (correctName read = none ∧ ∃ st', processRead st read = .ok st' ∧
      st'.read_counts = st.read_counts ∧ st'.keep_reads = st.keep_reads) ∨
    (∃ d, decodeName read.qname = some d ∧ correctName read = some d.original_name ∧
      processRead st read = recordCorrect st d.original_name d.variant_total) := by
  by_cases hs : read.is_secondary = true
  · right; left
    constructor
    · unfold correctName
      rw [if_pos hs]
    · refine ⟨st, ?_, rfl, rfl⟩
      unfold processRead
      rw [if_pos hs]
  · have hs2 : read.is_secondary = false := by revert hs; cases read.is_secondary <;> simp
    rcases hdec : decodeName read.qname with _ | d
    · left
      unfold processRead
      rw [hs2, hdec]
      rfl
    · have hpe := processRead_eq st read d hs2 hdec
      have hcn : correctName read =
          (if classifyMap read.pos read.next_reference_start read.is_paired
            read.is_proper_pair read.is_read1 read.is_read2 d.coordinate_spec = .correctMap
          then some d.original_name else none) := by
        unfold correctName
        rw [hs2, hdec]
        rfl
      rcases hcl : classifyMap read.pos read.next_reference_start read.is_paired
          read.is_proper_pair read.is_read1 read.is_read2 d.coordinate_spec
      · left
        rw [hpe, hcl]
      · right; left
        refine ⟨?_, st, ?_, rfl, rfl⟩
        · rw [hcn, hcl, if_neg (by decide)]
        · rw [hpe, hcl]
      · right; left
        refine ⟨?_, addBad st d.original_name, ?_, rfl, rfl⟩
        · rw [hcn, hcl, if_neg (by decide)]
        · rw [hpe, hcl]
      · right; right
        refine ⟨d, rfl, ?_, ?_⟩
        · rw [hcn, hcl, if_pos rfl]
        · rw [hpe, hcl]

/-- The invariant tying the verifier state to the per-name number `c n`
of correct records processed so far, for streams whose per-name totals
are `T`: a name is kept exactly when its count has reached its total,
and the count map holds exactly the partially counted names. -/
def CountInv (T : String → Int) (c : String → Nat) (st : FilterState) : Prop :=
  ∀ n, (n ∈ st.keep_reads ↔ (0 < c n ∧ (c n : Int) = T n)) ∧
    getCount st.read_counts n = if 0 < c n ∧ (c n : Int) < T n then some (c n) else none

/-- The invariant holds at the start: nothing counted, nothing kept. -/
lemma countInv_initial (T : String → Int) : CountInv T (fun _ => 0) initialState := by
  intro n
  constructor
  · constructor
    · intro h
      exact absurd h (Finset.not_mem_empty n)
    · rintro ⟨h0, -⟩
      simp at h0
  · have hget : getCount initialState.read_counts n = none := rfl
    rw [hget, if_neg ?_]
    rintro ⟨h0, -⟩
    simp at h0

/-- Counting one more correct record for `n` below its total preserves
the invariant and cannot hit the duplicate error. -/
lemma recordCorrect_inv (T : String → Int) (c : String → Nat) (st : FilterState) (n : String)
    (hInv : CountInv T c st) (hle : (c n : Int) + 1 ≤ T n) :
    ∃ st', recordCorrect st n (T n) = .ok st' ∧
      CountInv T (Function.update c n (c n + 1)) st' := by
  have hcount := (hInv n).2
  have hlt : (c n : Int) < T n := by omega
  have hnc : newCountOf st n = c n + 1 := by
    unfold newCountOf
    rw [hcount]
    by_cases h0 : 0 < c n
    · rw [if_pos ⟨h0, hlt⟩]
    · rw [if_neg (fun hh => h0 hh.1)]
      have hz : c n = 0 := by omega
      rw [hz]
  have hkeep : n ∉ st.keep_reads := by
    intro hk
    have := ((hInv n).1).mp hk
    omega
  by_cases hreach : ((c n + 1 : Nat) : Int) = T n
  · refine ⟨⟨delCount (setCount st.read_counts n (c n + 1)) n,
      insert n st.keep_reads, st.bad_reads⟩, ?_, ?_⟩
    · unfold recordCorrect
      rw [hnc, if_pos hreach, if_neg hkeep]
    · intro m
      by_cases hmn : m = n
      · subst hmn
        constructor
        · rw [Function.update_same]
          constructor
          · intro _
            exact ⟨by omega, hreach⟩
          · intro _
            exact Finset.mem_insert_self m _
        · rw [getCount_delCount, if_pos rfl, Function.update_same,
            if_neg (by intro hh; omega)]
      · have hup : Function.update c n (c n + 1) m = c m := Function.update_noteq hmn _ _
        constructor
        · rw [hup, Finset.mem_insert]
          constructor
          · rintro (h | h)
            · exact absurd h hmn
            · exact ((hInv m).1).mp h
          · intro h
            exact Or.inr (((hInv m).1).mpr h)
        · rw [getCount_delCount, if_neg hmn, getCount_setCount, if_neg hmn, hup]
          exact (hInv m).2
  · refine ⟨⟨setCount st.read_counts n (c n + 1), st.keep_reads, st.bad_reads⟩, ?_, ?_⟩
    · unfold recordCorrect
      rw [hnc, if_neg hreach]
    · intro m
      by_cases hmn : m = n
      · subst hmn
        constructor
        · rw [Function.update_same]
          constructor
          · intro h
            exact absurd h hkeep
          · rintro ⟨-, hh⟩
            exact absurd hh hreach
        · rw [getCount_setCount, if_pos rfl, Function.update_same,
            if_pos ⟨by omega, by omega⟩]
      · have hup : Function.update c n (c n + 1) m = c m := Function.update_noteq hmn _ _
        constructor
        · rw [hup]
          exact (hInv m).1
        · rw [getCount_setCount, if_neg hmn, hup]
          exact (hInv m).2

/-- Under a producer that emits at most `T n` correct variant records
per name (with consistent totals), the verifier fold never raises the
duplicate-resolution error, from any state satisfying the invariant. -/
lemma filterFrom_no_duplicate (T : String → Int) :
    ∀ (reads : List AlignedRead) (c : String → Nat) (st : FilterState),
      CountInv T c st →
      (∀ r ∈ reads, ∀ d, decodeName r.qname = some d →
        correctName r = some d.original_name → d.variant_total = T d.original_name) →
      (∀ n, (c n : Int) + reads.countP (fun r => decide (correctName r = some n)) ≤ T n) →
      filterFrom st reads ≠ .error .duplicate := by
  intro reads
  induction reads with
  | nil =>
    intro c st _ _ _
    unfold filterFrom
    simp only [List.foldlM_nil]
    intro h
    exact Except.noConfusion h
  | cons r rs ih =>
    intro c st hInv hT hcnt
    rw [filterFrom_cons]
    rcases processRead_cases st r with hmal | ⟨hcn, st1, hok, hrc, hkp⟩ | ⟨d, hdec, hcn, hpr⟩
    · rw [hmal]
      intro h
      simp [Bind.bind, Except.bind] at h
    · rw [hok]
      simp only [Bind.bind, Except.bind]
      apply ih c st1
      · intro m
        rw [hkp, hrc]
        exact hInv m
      · intro r2 hr2 d2 hd2 hc2
        exact hT r2 (List.mem_cons_of_mem _ hr2) d2 hd2 hc2
      · intro n
        have hn := hcnt n
        rw [List.countP_cons] at hn
        have hzero : (if decide (correctName r = some n) = true then (1 : Nat) else 0) = 0 := by
          simp [hcn]
        simp only [hzero] at hn
        omega
    · have hTd : d.variant_total = T d.original_name :=
        hT r (List.mem_cons_self r rs) d hdec hcn
      rw [hpr, hTd]
      have hle : (c d.original_name : Int) + 1 ≤ T d.original_name := by
        have hn := hcnt d.original_name
        rw [List.countP_cons] at hn
        have hone :
            (if decide (correctName r = some d.original_name) = true then (1 : Nat) else 0) = 1 := by
          simp [hcn]
        simp only [hone] at hn
        have hnn : (0 : Int) ≤
            (rs.countP (fun r => decide (correctName r = some d.original_name)) : Int) :=
          Int.ofNat_nonneg _
        omega
      rcases recordCorrect_inv T c st d.original_name hInv hle with ⟨st', hok, hInv'⟩
      rw [hok]
      simp only [Bind.bind, Except.bind]
      apply ih (Function.update c d.original_name (c d.original_name + 1)) st' hInv'
      · intro r2 hr2 d2 hd2 hc2
        exact hT r2 (List.mem_cons_of_mem _ hr2) d2 hd2 hc2
      · intro n
        have hn := hcnt n
        rw [List.countP_cons] at hn
        by_cases hmn : n = d.original_name
        · subst hmn
          rw [Function.update_same]
          have hone : (if decide (correctName r = some d.original_name) = true
              then (1 : Nat) else 0) = 1 := by
            simp [hcn]
          simp only [hone] at hn
          push_cast at hn ⊢
          omega
        · rw [Function.update_noteq hmn]
          have hzero : (if decide (correctName r = some n) = true then (1 : Nat) else 0) = 0 := by
            simp [hcn, Ne.symm hmn]
          simp only [hzero] at hn
          omega

/-- Claim C4: (a) if an incoming correct record makes the running count
for a name reach its declared `variant_total` while the name is already
a member of `keep_reads`, the loop body fails with the fatal
duplicate-detection error rather than silently continuing; (b) under a
producer that emits at most `variant_total` correct variant records per
name (with consistent totals), the whole run never raises this error —
the branch is unreachable. -/
theorem c4_duplicate_detection :
    (∀ (st : FilterState) (read : AlignedRead) (d : DecodedIdentifier),
      decodeName read.qname = some d →
      correctName read = some d.original_name →
      (newCountOf st d.original_name : Int) = d.variant_total →
      d.original_name ∈ st.keep_reads →
      processRead st read = .error .duplicate) ∧
    (∀ (T : String → Int) (reads : List AlignedRead),
      (∀ r ∈ reads, ∀ d, decodeName r.qname = some d →
        correctName r = some d.original_name → d.variant_total = T d.original_name) →
      (∀ n, (reads.countP (fun r => decide (correctName r = some n)) : Int) ≤ T n) →
      filter_reads reads ≠ .error .duplicate) := by
  constructor
  · intro st read d hdec hcn htot hmem
    rcases processRead_of_correct st read d.original_name hcn with ⟨d2, hdec2, ho2, hpr⟩
    have hd2 : d2 = d := Option.some.inj (hdec2.symm.trans hdec)
    rw [hd2] at hpr
    rw [hpr]
    unfold recordCorrect
    rw [if_pos htot, if_pos hmem]
  · intro T reads hT hcnt
    unfold filter_reads
    refine filterFrom_no_duplicate T reads (fun _ => 0) initialState (countInv_initial T) hT ?_
    intro n
    have := hcnt n
    simpa using this

/-- Witness for C4: with `"r"` already kept and counts empty, the
correct single-end record `"r.10.1.1"` at 0-based start 9 reaches its
total of 1 and aborts with the duplicate error; the same one-record
stream run from scratch never produces the duplicate error. -/
theorem c4_witness :
    processRead ⟨[], {"r"}, ∅⟩ ⟨"r.10.1.1", 9, 0, false, false, false, false, false⟩ =
      .error .duplicate ∧
    filter_reads [⟨"r.10.1.1", 9, 0, false, false, false, false, false⟩] ≠
      .error .duplicate :=
  ⟨c4_duplicate_detection.1 ⟨[], {"r"}, ∅⟩
      ⟨"r.10.1.1", 9, 0, false, false, false, false, false⟩ ⟨"r", "10", 1, 1⟩
      (by decide) (by decide) (by decide) (by decide),
   c4_duplicate_detection.2 (fun _ => 1)
      [⟨"r.10.1.1", 9, 0, false, false, false, false, false⟩]
      (by
        intro r hr d hd _
        rw [List.mem_singleton] at hr
        subst hr
        rw [show decodeName "r.10.1.1" = some ⟨"r", "10", 1, 1⟩ from by decide] at hd
        cases Option.some.inj hd
        rfl)
      (by
        intro n
        have h1 : List.countP (fun r => decide (correctName r = some n))
            [⟨"r.10.1.1", 9, 0, false, false, false, false, false⟩] ≤ 1 := by
          rw [List.countP_cons, List.countP_nil]
          split <;> omega
        show (List.countP (fun r => decide (correctName r = some n))
            [⟨"r.10.1.1", 9, 0, false, false, false, false, false⟩] : Int) ≤ 1
        omega)⟩
